import Mathlib

/-!
Verification of the Docker Hub tag-search pipeline
(`dockerhub_tag_search.py`): wildcard-to-regex compilation, tag
expansion, the five row filters, the optional size sort, paginated tag
retrieval, and the CSV header extraction.

Strings are modelled as lists of characters where that keeps the
functions directly executable.  Push timestamps are modelled as the
integers that `time.mktime(ciso8601.parse_datetime(s).timetuple())`
produces; date parsing itself is an external library and is abstracted
to the parsed value.
-/

namespace DockerTagSearch

/-! ## Model of `re.escape` and the wildcard compilation (source lines 155-158) -/

/-- The characters Python 3.7+ `re.escape` prefixes with a backslash. -/
def pySpecial : List Char :=
  ['(', ')', '[', ']', '\x7b', '\x7d', '?', '*', '+', '-', '|', '^', '$',
   '\\', '.', '&', '~', '#', ' ', '\t', '\n', '\r', '\x0b', '\x0c']

/-- One character of `re.escape` output. -/
def escapeChar (c : Char) : List Char :=
  if pySpecial.contains c then ['\\', c] else [c]

/-- Python `re.escape` over the character list of a string. -/
def reEscape (cs : List Char) : List Char :=
  cs.flatMap escapeChar

/-- Python `str.split('*')`: splits on every occurrence of the single
character, keeping empty segments (so the result is always nonempty). -/
def splitStar : List Char → List (List Char)
  | [] => [[]]
  | c :: rest =>
    match splitStar rest with
    | [] => [[]]
    | seg :: segs => if c = '*' then [] :: seg :: segs else (c :: seg) :: segs

/-- Source `wildcard_match_to_regex` (lines 155-158): the empty pattern
compiles to the empty string, any other pattern to
`'^' + '.*'.join(map(re.escape, pattern.split('*'))) + '$'`. -/
def wildcard_match_to_regex (pattern : String) : String :=
  if pattern = "" then ""
  else String.mk (('^' :: List.intercalate ['.', '*'] ((splitStar pattern.data).map reEscape)) ++ ['$'])

/-- Modelled from the spec: the regex described by the specification,
built by literal-escaping each star-delimited segment of the pattern and
joining the escaped segments with the match-anything wildcard, anchored
at both ends.  Used only to compare against `wildcard_match_to_regex`. -/
def specWildcardRegex (pattern : String) : String :=
  String.mk (('^' :: List.intercalate ['.', '*'] ((splitStar pattern.data).map reEscape)) ++ ['$'])

/-! ## Semantics of `re.match(pattern, s, re.IGNORECASE)` for the
compiled wildcard patterns: `^seg0.*seg1...*segN$` where every segment
is an escaped literal.  The dot of the joiner is modelled as matching
any character (tag names carry no newlines). -/

/-- Boolean prefix test on character lists. -/
def startsWithL : List Char → List Char → Bool
  | [], _ => true
  | _ :: _, [] => false
  | a :: as, b :: bs => a == b && startsWithL as bs

/-- Does `r` match `.*seg1.*seg2...segN$` (a trailing anchored tail of
the compiled regex)?  The empty segment list demands the end of input. -/
def matchFrom : List (List Char) → List Char → Bool
  | [], r => r.isEmpty
  | seg :: rest, r =>
    r.tails.any fun t => startsWithL seg t && matchFrom rest (t.drop seg.length)

/-- Does `s` match `^seg0.*seg1...*segN$`? -/
def matchSegs (segs : List (List Char)) (s : List Char) : Bool :=
  match segs with
  | [] => s.isEmpty
  | seg :: rest => startsWithL seg s && matchFrom rest (s.drop seg.length)

/-- Undo `re.escape`: drop each escaping backslash. -/
def unescape : List Char → List Char
  | [] => []
  | '\\' :: c :: rest => c :: unescape rest
  | c :: rest => c :: unescape rest

/-- Python `str.split(".*")` specialised to the two-character separator,
scanning left to right.  Inside `re.escape` output the two characters
dot-star never occur adjacently, so on compiled wildcard patterns this
exactly recovers the escaped segments. -/
def splitDotStar : List Char → List (List Char)
  | [] => [[]]
  | '.' :: '*' :: rest => [] :: splitDotStar rest
  | c :: rest =>
    match splitDotStar rest with
    | [] => [[]]
    | seg :: segs => (c :: seg) :: segs

/-- Recognise an anchored pattern `^...$` and recover its literal
segments. -/
def parseAnchored (cs : List Char) : Option (List (List Char)) :=
  if cs.head? = some '^' ∧ cs.getLast? = some '$' then
    some ((splitDotStar ((cs.drop 1).dropLast)).map unescape)
  else none

/-- Lower-case a character list (ASCII case folding, which is what
`re.IGNORECASE` amounts to on the registry's ASCII tag data). -/
def lowerList (cs : List Char) : List Char := cs.map Char.toLower

/-- Model of Python `re.match(pattern, s, re.IGNORECASE)` for the
anchored patterns produced by `wildcard_match_to_regex`.  Patterns
outside that sublanguage are outside the model (the filters under
verification only ever receive compiled wildcard patterns or the empty
pattern, which is short-circuited before matching). -/
def reMatchIC (pattern s : String) : Bool :=
  match parseAnchored pattern.data with
  | none => false
  | some segs => matchSegs (segs.map lowerList) (lowerList s.data)


/-! ## Data model: tag records, image variants, expanded rows -/

/-- One platform build of a tag, as delivered inside a tag record's
nested images array.  Optional strings model JSON null; push timestamps
are modelled as the parsed integral epoch seconds (absent = null). -/
structure Image where
  architecture : Option String
  features : Option String
  variant : Option String
  os : Option String
  os_features : Option String
  os_version : Option String
  size : Int
  last_pushed : Option Int
  digest : Option String
  status : Option String
deriving DecidableEq

/-- One entry of the registry's tag list, restricted to the fields the
program reads. -/
structure TagRecord where
  name : String
  tag_last_pushed : Option Int
  images : List Image
deriving DecidableEq

/-- The flattening of a tag record with one of its image variants:
every tag-level field except the raw image list, plus the image fields
behind an image underscore prefix (source lines 342-349). -/
structure ExpandedRow where
  name : String
  tag_last_pushed : Option Int
  image_architecture : Option String
  image_features : Option String
  image_variant : Option String
  image_os : Option String
  image_os_features : Option String
  image_os_version : Option String
  image_size : Int
  image_last_pushed : Option Int
  image_digest : Option String
  image_status : Option String
deriving DecidableEq

/-- The merged dictionary built for one (tag, image) pair. -/
def expandRow (t : TagRecord) (img : Image) : ExpandedRow :=
  { name := t.name
    tag_last_pushed := t.tag_last_pushed
    image_architecture := img.architecture
    image_features := img.features
    image_variant := img.variant
    image_os := img.os
    image_os_features := img.os_features
    image_os_version := img.os_version
    image_size := img.size
    image_last_pushed := img.last_pushed
    image_digest := img.digest
    image_status := img.status }

/-- Source `expand_tags` (lines 342-349): one row per (tag, image)
pair, in input order. -/
def expand_tags (tags : List TagRecord) : List ExpandedRow :=
  tags.flatMap fun t => t.images.map (expandRow t)

/-- Python falsy-to-empty coercion on an optional string. -/
def orEmpty : Option String → String
  | some s => s
  | none => ""

/-- Source `get_image_os` (lines 286-290): OS name, feature flags and
version concatenated, absent components contributing the empty string. -/
def get_image_os (t : ExpandedRow) : String :=
  orEmpty t.image_os ++ orEmpty t.image_os_features ++ orEmpty t.image_os_version

/-- Source `get_image_arch` (lines 292-296): architecture name, feature
flags and variant concatenated. -/
def get_image_arch (t : ExpandedRow) : String :=
  orEmpty t.image_architecture ++ orEmpty t.image_features ++ orEmpty t.image_variant

/-! ## The five filters (source lines 298-340) -/

/-- Source `filter_tags` (lines 298-303): empty pattern passes the rows
through; otherwise keep rows whose tag name matches case-insensitively. -/
def filter_tags (tags : List ExpandedRow) (pattern : String) : List ExpandedRow :=
  if pattern = "" then tags
  else tags.filter fun t => reMatchIC pattern t.name

/-- Source `filter_arch` (lines 305-310). -/
def filter_arch (tags : List ExpandedRow) (pattern : String) : List ExpandedRow :=
  if pattern = "" then tags
  else tags.filter fun t => reMatchIC pattern (get_image_arch t)

/-- Source `filter_os` (lines 312-317). -/
def filter_os (tags : List ExpandedRow) (pattern : String) : List ExpandedRow :=
  if pattern = "" then tags
  else tags.filter fun t => reMatchIC pattern (get_image_os t)

/-- The domain of the date bounds: `-math.inf`, `math.inf`, or the
finite timestamp a user-supplied date parses to. -/
inductive XTime where
  | negInf : XTime
  | posInf : XTime
  | fin : Int → XTime
deriving DecidableEq

/-- The comparison `after <= push_timestamp` of source line 331. -/
def XTime.leFin : XTime → Int → Bool
  | .negInf, _ => true
  | .posInf, _ => false
  | .fin a, t => a ≤ t

/-- The comparison `push_timestamp <= before` of source line 331. -/
def XTime.finLe : Int → XTime → Bool
  | _, .negInf => false
  | _, .posInf => true
  | t, .fin b => t ≤ b

/-- Source `get_push_date_from_tag` (lines 356-358): the image-level
push time when present, else the tag-level push time. -/
def get_push_date_from_tag (t : ExpandedRow) : Option Int :=
  match t.image_last_pushed with
  | some d => some d
  | none => t.tag_last_pushed

/-- Source `filter_date` (lines 319-333): pass-through when both bounds
are the infinite defaults; otherwise keep rows whose comparison
timestamp exists and lies inclusively between the bounds. -/
def filter_date (tags : List ExpandedRow) (after before : XTime) : List ExpandedRow :=
  if after = XTime.negInf ∧ before = XTime.posInf then tags
  else tags.filter fun t =>
    match get_push_date_from_tag t with
    | none => false
    | some ts => XTime.leFin after ts && XTime.finLe ts before

/-- Source `filter_size` (lines 335-340): a falsy bound (absent, or a
parsed size of zero) passes the rows through; otherwise keep rows whose
image size is at most the bound. -/
def filter_size (tags : List ExpandedRow) (size : Option Int) : List ExpandedRow :=
  match size with
  | none => tags
  | some n => if n = 0 then tags else tags.filter fun t => t.image_size ≤ n

/-- The optional sort of source lines 404-405: Python `sorted` with the
image size as key is a stable merge sort. -/
def sort_rows (sort : Bool) (tags : List ExpandedRow) : List ExpandedRow :=
  if sort then tags.mergeSort fun a b => a.image_size ≤ b.image_size else tags

/-! ## The filter pipeline of `main` (source lines 399-405) -/

/-- The parameters the five filters draw from the parsed arguments. -/
structure FilterParams where
  regex : String
  arch : String
  os : String
  after : XTime
  before : XTime
  below : Option Int
deriving DecidableEq

/-- Names for the five filters, in no particular order. -/
inductive FilterKind where
  | name : FilterKind
  | arch : FilterKind
  | os : FilterKind
  | date : FilterKind
  | size : FilterKind
deriving DecidableEq

/-- Apply one of the five filters. -/
def applyFilter (ps : FilterParams) (k : FilterKind) (tags : List ExpandedRow) : List ExpandedRow :=
  match k with
  | .name => filter_tags tags ps.regex
  | .arch => filter_arch tags ps.arch
  | .os => filter_os tags ps.os
  | .date => filter_date tags ps.after ps.before
  | .size => filter_size tags ps.below

/-- Apply the filters named by `order`, left to right. -/
def applyFilters (ps : FilterParams) (order : List FilterKind) (tags : List ExpandedRow) : List ExpandedRow :=
  order.foldl (fun acc k => applyFilter ps k acc) tags

/-- The order `main` applies the filters in (lines 399-403). -/
def refOrder : List FilterKind :=
  [FilterKind.name, FilterKind.arch, FilterKind.os, FilterKind.date, FilterKind.size]

/-- The row list `main` hands to the presenter: expansion, the five
filters in reference order, then the optional size sort. -/
def pipeline_rows (tags : List TagRecord) (ps : FilterParams) (sort : Bool) : List ExpandedRow :=
  sort_rows sort (applyFilters ps refOrder (expand_tags tags))

/-- The rows reaching the presenter, or `none` when `main` returned
early because the fetch produced no tags (line 395-396). -/
def main_rows (fetched : List TagRecord) (ps : FilterParams) (sort : Bool) : Option (List ExpandedRow) :=
  if fetched = [] then none else some (pipeline_rows fetched ps sort)

/-! ## The fetcher (source lines 128-152)

The HTTP layer is modelled as a total map from URLs to responses; a
response carries the status code, the embedded next-page cursor and the
page's results.  `try_get` raises `StatusCodeException` on a non-200
status (that exception is not a `requests.RequestException`, so it
escapes the retry loop at once) and `retrieve_tags` catches it and
returns the empty list.  The while loop is given fuel; every claim
supplies enough fuel for its page chain. -/

structure PageResponse where
  status : Nat
  next : Option String
  results : List TagRecord

/-- The while loop of `retrieve_tags`, also recording each URL fetched
(one GET per loop iteration).  Returns the fetched URLs and the
accumulated tag list; a non-200 page discards the accumulator and
yields no tags, exactly as the source's early `return []`. -/
def retrieveLoop (server : String → PageResponse) :
    Nat → Option String → List String → List TagRecord → List String × List TagRecord
  | _, none, gets, acc => (gets, acc)
  | 0, some _, gets, acc => (gets, acc)
  | fuel + 1, some url, gets, acc =>
    let page := server url
    if page.status ≠ 200 then (gets ++ [url], [])
    else retrieveLoop server fuel page.next (gets ++ [url]) (acc ++ page.results)

/-- Source `retrieve_tags`, started on the first-page URL. -/
def retrieve_tags (server : String → PageResponse) (startUrl : String) (fuel : Nat) :
    List String × List TagRecord :=
  retrieveLoop server fuel (some startUrl) [] []

/-- A well-formed finite page chain: every page answers 200, each page's
cursor names the next URL and the last page's cursor is the null
sentinel. -/
def isChain (server : String → PageResponse) : List String → Prop
  | [] => True
  | [u] => (server u).status = 200 ∧ (server u).next = none
  | u :: u' :: rest =>
    (server u).status = 200 ∧ (server u).next = some u' ∧ isChain server (u' :: rest)

/-- A chain of 200 pages whose last cursor points at `bad`. -/
def chainTo (server : String → PageResponse) : List String → String → Prop
  | [], _ => True
  | [u], bad => (server u).status = 200 ∧ (server u).next = some bad
  | u :: u' :: rest, bad =>
    (server u).status = 200 ∧ (server u).next = some u' ∧ chainTo server (u' :: rest) bad

/-! ## CSV header extraction (source lines 377-382) -/

/-- The field names of every expanded row, i.e. Python
`tags[0].keys()` once the first row exists. -/
def rowKeys : List String :=
  ["name", "tag_last_pushed", "image_architecture", "image_features",
   "image_variant", "image_os", "image_os_features", "image_os_version",
   "image_size", "image_last_pushed", "image_digest", "image_status"]

/-- The header lookup `fields = tags[0].keys()` of `csv_print_tags`:
`none` models the uncaught `IndexError` on an empty row list. -/
def csv_fields (tags : List ExpandedRow) : Option (List String) :=
  tags.head?.map fun _ => rowKeys

/-! ## Theorems -/

/-- C1 counterexample: at the empty pattern the compiled pattern is the
empty string, not the anchored regex the claim describes (which would
be the empty-matching regex). -/
theorem wildcard_regex_empty_pattern :
    wildcard_match_to_regex ("") = "" ∧ specWildcardRegex ("") = "^$" ∧
    wildcard_match_to_regex ("") ≠ specWildcardRegex ("") := by
  decide

/-- C1 (amended to non-empty patterns): for every non-empty wildcard
pattern the compiled pattern is exactly the regex built by
literal-escaping each star-delimited segment and joining with the
match-anything wildcard, anchored at both ends; matching against the
compiled pattern is case-insensitive (it depends only on the
case-folded input); and the compilation of the example pattern matches
the example tag names as the claim states. -/
theorem wildcard_regex_spec (p : String) (hp : p ≠ "") :
    wildcard_match_to_regex p = specWildcardRegex p ∧
    (∀ s₁ s₂ : String, lowerList s₁.data = lowerList s₂.data →
      reMatchIC (wildcard_match_to_regex p) s₁ = reMatchIC (wildcard_match_to_regex p) s₂) ∧
    reMatchIC (wildcard_match_to_regex ("1.2*alpine*perl*")) "1.23-alpine-perl" = true ∧
    reMatchIC (wildcard_match_to_regex ("1.2*alpine*perl*")) "1.23-Alpine-PERL" = true ∧
    reMatchIC (wildcard_match_to_regex ("1.2*alpine*perl*")) "1.23-alpine" = false := by
  refine ⟨?_, ?_, by decide, by decide, by decide⟩
  · simp [wildcard_match_to_regex, specWildcardRegex, hp]
  · intro s₁ s₂ h
    simp only [reMatchIC]
    cases parseAnchored (wildcard_match_to_regex p).data with
    | none => rfl
    | some segs => rw [h]

/-- C1 witness: the amended statement instantiated at the example
pattern. -/
theorem wildcard_regex_spec_witness :
    ("1.2*alpine*perl*" : String) ≠ "" ∧
    (wildcard_match_to_regex ("1.2*alpine*perl*") = specWildcardRegex ("1.2*alpine*perl*") ∧
      (∀ s₁ s₂ : String, lowerList s₁.data = lowerList s₂.data →
        reMatchIC (wildcard_match_to_regex ("1.2*alpine*perl*")) s₁ =
          reMatchIC (wildcard_match_to_regex ("1.2*alpine*perl*")) s₂) ∧
      reMatchIC (wildcard_match_to_regex ("1.2*alpine*perl*")) "1.23-alpine-perl" = true ∧
      reMatchIC (wildcard_match_to_regex ("1.2*alpine*perl*")) "1.23-Alpine-PERL" = true ∧
      reMatchIC (wildcard_match_to_regex ("1.2*alpine*perl*")) "1.23-alpine" = false) :=
  ⟨by decide, wildcard_regex_spec ("1.2*alpine*perl*") (by decide)⟩

/-- C2: the expansion produces exactly one row per (tag, image) pair —
its length is the sum of the image-list lengths of the input records,
so a record with an empty image list contributes zero rows. -/
theorem expand_tags_length (tags : List TagRecord) :
    (expand_tags tags).length = (tags.map fun t => t.images.length).sum := by
  induction tags with
  | nil => rfl
  | cons t rest ih =>
    simp only [expand_tags, List.flatMap_cons, List.length_append, List.length_map,
      List.map_cons, List.sum_cons] at ih ⊢
    omega

/-- C3: each of the five filters is the identity when its controlling
input is empty or unset — the empty pattern for the three regex
filters, the two infinite defaults for the date filter, and an absent
(or zero, i.e. falsy) bound for the size filter. -/
theorem filters_identity (tags : List ExpandedRow) :
    filter_tags tags ("") = tags ∧ filter_arch tags ("") = tags ∧ filter_os tags ("") = tags ∧
    filter_date tags XTime.negInf XTime.posInf = tags ∧
    filter_size tags none = tags ∧ filter_size tags (some 0) = tags := by
  refine ⟨rfl, rfl, rfl, ?_, rfl, ?_⟩
  · simp [filter_date]
  · simp [filter_size]

/-- C5: with a set, non-zero bound the size filter keeps exactly the
rows whose image size is at most the bound: a row of size exactly the
bound is retained and a row one byte over is excluded. -/
theorem filter_size_spec (tags : List ExpandedRow) (b : Int) (hb : b ≠ 0) :
    filter_size tags (some b) = (tags.filter fun t => t.image_size ≤ b) ∧
    (∀ t ∈ tags, t.image_size = b → t ∈ filter_size tags (some b)) ∧
    (∀ t : ExpandedRow, t.image_size = b + 1 → t ∉ filter_size tags (some b)) := by
  have heq : filter_size tags (some b) = tags.filter fun t => t.image_size ≤ b := by
    simp [filter_size, hb]
  refine ⟨heq, ?_, ?_⟩
  · intro t ht hsz
    rw [heq]
    exact List.mem_filter.mpr ⟨ht, by simp [hsz]⟩
  · intro t hsz hmem
    rw [heq] at hmem
    have := (List.mem_filter.mp hmem).2
    simp [hsz] at this

/-- A concrete expanded row used by the witnesses. -/
def sampleRow (sz : Int) (imgPush : Option Int) : ExpandedRow :=
  { name := "1.23-alpine"
    tag_last_pushed := none
    image_architecture := some ("amd64")
    image_features := some ("")
    image_variant := none
    image_os := some ("linux")
    image_os_features := some ("")
    image_os_version := none
    image_size := sz
    image_last_pushed := imgPush
    image_digest := none
    image_status := some ("active") }

/-- C5 witness: the boundary behaviour at bound 10 with rows of sizes
10 and 11. -/
theorem filter_size_spec_witness :
    (10 : Int) ≠ 0 ∧
    (filter_size [sampleRow 10 none, sampleRow 11 none] (some 10) =
        ([sampleRow 10 none, sampleRow 11 none].filter fun t => t.image_size ≤ 10) ∧
      (∀ t ∈ [sampleRow 10 none, sampleRow 11 none], t.image_size = 10 →
        t ∈ filter_size [sampleRow 10 none, sampleRow 11 none] (some 10)) ∧
      (∀ t : ExpandedRow, t.image_size = 10 + 1 →
        t ∉ filter_size [sampleRow 10 none, sampleRow 11 none] (some 10))) :=
  ⟨by decide, filter_size_spec [sampleRow 10 none, sampleRow 11 none] 10 (by decide)⟩

/-- C6: when at least one date bound is active, the date filter keeps a
row exactly when its comparison timestamp (image-level push time when
present, else the tag-level push time) exists and lies inclusively
between the bounds; a row with no timestamp at all is excluded. -/
theorem filter_date_spec (tags : List ExpandedRow) (after before : XTime)
    (h : after ≠ XTime.negInf ∨ before ≠ XTime.posInf) :
    filter_date tags after before =
      (tags.filter fun t =>
        match get_push_date_from_tag t with
        | none => false
        | some ts => XTime.leFin after ts && XTime.finLe ts before) ∧
    ∀ t : ExpandedRow, t ∈ filter_date tags after before ↔
      t ∈ tags ∧ ∃ ts : Int, get_push_date_from_tag t = some ts ∧
        XTime.leFin after ts = true ∧ XTime.finLe ts before = true := by
  have hguard : ¬(after = XTime.negInf ∧ before = XTime.posInf) := by
    intro hc
    rcases h with h | h
    · exact h hc.1
    · exact h hc.2
  have heq : filter_date tags after before =
      tags.filter fun t =>
        match get_push_date_from_tag t with
        | none => false
        | some ts => XTime.leFin after ts && XTime.finLe ts before := by
    simp [filter_date, hguard]
  refine ⟨heq, fun t => ?_⟩
  rw [heq, List.mem_filter]
  constructor
  · rintro ⟨hmem, hp⟩
    refine ⟨hmem, ?_⟩
    cases hts : get_push_date_from_tag t with
    | none => rw [hts] at hp; exact absurd hp (by simp)
    | some ts =>
      rw [hts] at hp
      simp only [Bool.and_eq_true] at hp
      exact ⟨ts, rfl, hp.1, hp.2⟩
  · rintro ⟨hmem, ts, hts, h₁, h₂⟩
    refine ⟨hmem, ?_⟩
    rw [hts]
    simp [h₁, h₂]

/-- C6 witness: with bounds [0, +inf) a row pushed at timestamp 5 is
retained and a row with no timestamp is excluded. -/
theorem filter_date_spec_witness :
    ((XTime.fin 0 ≠ XTime.negInf ∨ XTime.posInf ≠ XTime.posInf) ∧
      (filter_date [sampleRow 1 (some 5), sampleRow 2 none] (XTime.fin 0) XTime.posInf =
        ([sampleRow 1 (some 5), sampleRow 2 none].filter fun t =>
          match get_push_date_from_tag t with
          | none => false
          | some ts => XTime.leFin (XTime.fin 0) ts && XTime.finLe ts XTime.posInf) ∧
      ∀ t : ExpandedRow,
        t ∈ filter_date [sampleRow 1 (some 5), sampleRow 2 none] (XTime.fin 0) XTime.posInf ↔
        t ∈ [sampleRow 1 (some 5), sampleRow 2 none] ∧
          ∃ ts : Int, get_push_date_from_tag t = some ts ∧
            XTime.leFin (XTime.fin 0) ts = true ∧ XTime.finLe ts XTime.posInf = true)) ∧
    filter_date [sampleRow 1 (some 5), sampleRow 2 none] (XTime.fin 0) XTime.posInf =
      [sampleRow 1 (some 5)] :=
  ⟨⟨Or.inl (by decide),
    filter_date_spec [sampleRow 1 (some 5), sampleRow 2 none] (XTime.fin 0) XTime.posInf
      (Or.inl (by decide))⟩,
   by decide⟩

/-- The comparison key Python `sorted` is called with in `main`. -/
def sizeLE (a b : ExpandedRow) : Bool := a.image_size ≤ b.image_size

theorem sizeLE_trans (a b c : ExpandedRow) (h₁ : sizeLE a b) (h₂ : sizeLE b c) : sizeLE a c := by
  simp only [sizeLE, decide_eq_true_eq] at h₁ h₂ ⊢
  omega

theorem sizeLE_total (a b : ExpandedRow) : sizeLE a b || sizeLE b a := by
  simp only [sizeLE]
  by_cases h : a.image_size ≤ b.image_size
  · simp [h]
  · simp [le_of_lt (lt_of_not_le h)]

/-- C7: without the sort flag the row list is untouched; with it the
result is a permutation of the input, ascending in image size, and
stable — for every size value the rows of that size appear in the same
order as in the input. -/
theorem sort_rows_spec (tags : List ExpandedRow) :
    sort_rows false tags = tags ∧
    List.Perm (sort_rows true tags) tags ∧
    List.Pairwise (fun a b => a.image_size ≤ b.image_size) (sort_rows true tags) ∧
    ∀ s : Int, (sort_rows true tags).filter (fun t => t.image_size = s) =
      tags.filter fun t => t.image_size = s := by
  have hdef : sort_rows true tags = tags.mergeSort sizeLE := rfl
  refine ⟨rfl, ?_, ?_, ?_⟩
  · rw [hdef]
    exact List.mergeSort_perm tags sizeLE
  · rw [hdef]
    have := List.sorted_mergeSort sizeLE_trans sizeLE_total tags
    exact this.imp fun h => by simpa [sizeLE] using h
  · intro s
    rw [hdef]
    set p : ExpandedRow → Bool := fun t => decide (t.image_size = s) with hp
    have hpair : (tags.filter p).Pairwise fun a b => sizeLE a b = true := by
      apply List.pairwise_of_forall_mem_list
      intro a ha b hb
      have ha' := of_decide_eq_true (List.mem_filter.mp ha).2
      have hb' := of_decide_eq_true (List.mem_filter.mp hb).2
      simp [sizeLE, ha', hb']
    have hsub : List.Sublist (tags.filter p) (tags.mergeSort sizeLE) :=
      List.sublist_mergeSort sizeLE_trans sizeLE_total hpair (List.filter_sublist tags)
    have hidem : (tags.filter p).filter p = tags.filter p := by
      rw [List.filter_filter]
      simp
    have hsub2 : List.Sublist (tags.filter p) ((tags.mergeSort sizeLE).filter p) := by
      rw [← hidem]
      exact hsub.filter p
    have hperm : List.Perm ((tags.mergeSort sizeLE).filter p) (tags.filter p) :=
      (List.mergeSort_perm tags sizeLE).filter p
    exact (hsub2.eq_of_length hperm.length_eq.symm).symm

/-- The row predicate each filter decides with, pass-through guards
included (an unset filter keeps every row). -/
def filterPred (ps : FilterParams) : FilterKind → ExpandedRow → Bool
  | .name, t => if ps.regex = "" then true else reMatchIC ps.regex t.name
  | .arch, t => if ps.arch = "" then true else reMatchIC ps.arch (get_image_arch t)
  | .os, t => if ps.os = "" then true else reMatchIC ps.os (get_image_os t)
  | .date, t =>
    if ps.after = XTime.negInf ∧ ps.before = XTime.posInf then true
    else
      match get_push_date_from_tag t with
      | none => false
      | some ts => XTime.leFin ps.after ts && XTime.finLe ts ps.before
  | .size, t =>
    match ps.below with
    | none => true
    | some n => if n = 0 then true else t.image_size ≤ n

theorem applyFilter_eq_filter (ps : FilterParams) (k : FilterKind) (tags : List ExpandedRow) :
    applyFilter ps k tags = tags.filter (filterPred ps k) := by
  cases k with
  | name =>
    by_cases h : ps.regex = ""
    · simp only [applyFilter, filter_tags, if_pos h]
      symm
      rw [List.filter_eq_self]
      intro a _
      simp [filterPred, h]
    · simp only [applyFilter, filter_tags, if_neg h]
      exact List.filter_congr fun a _ => by simp [filterPred, h]
  | arch =>
    by_cases h : ps.arch = ""
    · simp only [applyFilter, filter_arch, if_pos h]
      symm
      rw [List.filter_eq_self]
      intro a _
      simp [filterPred, h]
    · simp only [applyFilter, filter_arch, if_neg h]
      exact List.filter_congr fun a _ => by simp [filterPred, h]
  | os =>
    by_cases h : ps.os = ""
    · simp only [applyFilter, filter_os, if_pos h]
      symm
      rw [List.filter_eq_self]
      intro a _
      simp [filterPred, h]
    · simp only [applyFilter, filter_os, if_neg h]
      exact List.filter_congr fun a _ => by simp [filterPred, h]
  | date =>
    by_cases h : ps.after = XTime.negInf ∧ ps.before = XTime.posInf
    · simp only [applyFilter, filter_date, if_pos h]
      symm
      rw [List.filter_eq_self]
      intro a _
      simp [filterPred, h]
    · simp only [applyFilter, filter_date, if_neg h]
      exact List.filter_congr fun a _ => by simp [filterPred, h]
  | size =>
    cases hb : ps.below with
    | none =>
      simp only [applyFilter, filter_size, hb]
      symm
      rw [List.filter_eq_self]
      intro a _
      simp [filterPred, hb]
    | some n =>
      by_cases h : n = 0
      · simp only [applyFilter, filter_size, hb, if_pos h]
        symm
        rw [List.filter_eq_self]
        intro a _
        simp [filterPred, hb, h]
      · simp only [applyFilter, filter_size, hb, if_neg h]
        exact List.filter_congr fun a _ => by simp [filterPred, hb, h]

theorem applyFilters_eq_filter (ps : FilterParams) (order : List FilterKind)
    (tags : List ExpandedRow) :
    applyFilters ps order tags =
      tags.filter fun t => order.all fun k => filterPred ps k t := by
  induction order generalizing tags with
  | nil => simp [applyFilters]
  | cons k rest ih =>
    have hstep : applyFilters ps (k :: rest) tags = applyFilters ps rest (applyFilter ps k tags) := rfl
    rw [hstep, ih, applyFilter_eq_filter, List.filter_filter]
    apply List.filter_congr
    intro t _
    simp [List.all_cons, Bool.and_comm]

theorem perm_all {α : Type} {l₁ l₂ : List α} (f : α → Bool) (h : List.Perm l₁ l₂) :
    l₁.all f = l₂.all f := by
  induction h with
  | nil => rfl
  | cons a _ ih => simp [List.all_cons, ih]
  | swap a b l => cases hfa : f a <;> cases hfb : f b <;> simp [List.all_cons, hfa, hfb]
  | trans _ _ ih₁ ih₂ => exact ih₁.trans ih₂

/-- C4: the five filters commute — applying them in any order gives the
same rows as the reference order of `main` (name, architecture, OS,
date, size), for every fixed choice of parameters. -/
theorem filters_commute (ps : FilterParams) (tags : List ExpandedRow)
    (order : List FilterKind) (h : List.Perm order refOrder) :
    applyFilters ps order tags = applyFilters ps refOrder tags := by
  rw [applyFilters_eq_filter, applyFilters_eq_filter]
  exact List.filter_congr fun t _ => perm_all (fun k => filterPred ps k t) h

/-- Concrete filter parameters used by the witnesses: a compiled name
wildcard, a compiled architecture wildcard, a date window and a size
bound. -/
def sampleParams : FilterParams :=
  { regex := wildcard_match_to_regex ("1.2*alpine*")
    arch := wildcard_match_to_regex ("amd*")
    os := ""
    after := XTime.fin 0
    before := XTime.posInf
    below := some 100
    }

/-- C4 witness: the fully reversed order applied to concrete rows gives
the same result as the reference order. -/
theorem filters_commute_witness :
    List.Perm [FilterKind.size, FilterKind.date, FilterKind.os, FilterKind.arch, FilterKind.name]
      refOrder ∧
    applyFilters sampleParams
        [FilterKind.size, FilterKind.date, FilterKind.os, FilterKind.arch, FilterKind.name]
        [sampleRow 10 (some 5), sampleRow 200 (some 5), sampleRow 20 none] =
      applyFilters sampleParams refOrder
        [sampleRow 10 (some 5), sampleRow 200 (some 5), sampleRow 20 none] :=
  ⟨by decide,
   filters_commute sampleParams
     [sampleRow 10 (some 5), sampleRow 200 (some 5), sampleRow 20 none]
     [FilterKind.size, FilterKind.date, FilterKind.os, FilterKind.arch, FilterKind.name]
     (by decide)⟩

theorem retrieveLoop_chain (server : String → PageResponse) :
    ∀ (rest : List String) (u : String) (fuel : Nat) (gets : List String) (acc : List TagRecord),
      isChain server (u :: rest) → rest.length + 1 ≤ fuel →
      retrieveLoop server fuel (some u) gets acc =
        (gets ++ (u :: rest), acc ++ ((u :: rest).map fun v => (server v).results).flatten) := by
  intro rest
  induction rest with
  | nil =>
    intro u fuel gets acc hchain hfuel
    simp only [isChain] at hchain
    obtain ⟨h200, hnext⟩ := hchain
    cases fuel with
    | zero => omega
    | succ f => simp [retrieveLoop, h200, hnext]
  | cons u' rest' ih =>
    intro u fuel gets acc hchain hfuel
    simp only [isChain] at hchain
    obtain ⟨h200, hnext, hrest⟩ := hchain
    cases fuel with
    | zero => simp at hfuel
    | succ f =>
      have hf : rest'.length + 1 ≤ f := by
        simp only [List.length_cons] at hfuel
        omega
      have hstep : retrieveLoop server (f + 1) (some u) gets acc =
          retrieveLoop server f (some u') (gets ++ [u]) (acc ++ (server u).results) := by
        simp [retrieveLoop, h200, hnext]
      rw [hstep, ih u' f (gets ++ [u]) (acc ++ (server u).results) hrest hf]
      simp

/-- C8: over a finite page chain whose cursors point page to page until
the null sentinel, the fetcher issues exactly one GET per page, in
cursor order, and returns the concatenation of the pages' results in
fetch order. -/
theorem retrieve_tags_chain (server : String → PageResponse) (u : String) (rest : List String)
    (fuel : Nat) (hchain : isChain server (u :: rest)) (hfuel : rest.length + 1 ≤ fuel) :
    retrieve_tags server u fuel =
      (u :: rest, ((u :: rest).map fun v => (server v).results).flatten) := by
  have := retrieveLoop_chain server rest u fuel [] [] hchain hfuel
  simpa [retrieve_tags] using this

/-- A tag record with no image variants, used by the witnesses. -/
def pageTag (nm : String) : TagRecord :=
  { name := nm, tag_last_pushed := none, images := [] }

/-- A three-page server: the mocked next-next-null sequence of the
specification. -/
def server3 : String → PageResponse := fun u =>
  if u = "page1" then { status := 200, next := some ("page2"), results := [pageTag ("a")] }
  else if u = "page2" then { status := 200, next := some ("page3"), results := [pageTag ("b")] }
  else if u = "page3" then { status := 200, next := none, results := [pageTag ("c")] }
  else { status := 404, next := none, results := [] }

/-- C8 witness: the three-page chain yields three GETs and the three
pages' results concatenated in order. -/
theorem retrieve_tags_chain_witness :
    isChain server3 ("page1" :: ["page2", "page3"]) ∧
    (["page2", "page3"] : List String).length + 1 ≤ 3 ∧
    retrieve_tags server3 ("page1") 3 =
      ("page1" :: ["page2", "page3"],
        (("page1" :: ["page2", "page3"]).map fun v => (server3 v).results).flatten) :=
  ⟨by simp only [isChain]; decide, by decide,
   retrieve_tags_chain server3 ("page1") ["page2", "page3"] 3
     (by simp only [isChain]; decide) (by decide)⟩

theorem retrieveLoop_chainTo (server : String → PageResponse) :
    ∀ (good : List String) (bad : String) (fuel : Nat) (gets : List String) (acc : List TagRecord),
      chainTo server good bad → (server bad).status ≠ 200 → good.length + 1 ≤ fuel →
      retrieveLoop server fuel (some (good.headD bad)) gets acc = (gets ++ good ++ [bad], []) := by
  intro good
  induction good with
  | nil =>
    intro bad fuel gets acc _ hbad hfuel
    cases fuel with
    | zero => omega
    | succ f => simp [retrieveLoop, hbad]
  | cons u good' ih =>
    intro bad fuel gets acc hchain hbad hfuel
    have hstep : (server u).status = 200 ∧ (server u).next = some (good'.headD bad) ∧
        chainTo server good' bad := by
      cases good' with
      | nil =>
        simp only [chainTo] at hchain
        exact ⟨hchain.1, hchain.2, trivial⟩
      | cons u' rest =>
        simp only [chainTo] at hchain ⊢
        exact hchain
    cases fuel with
    | zero => simp at hfuel
    | succ f =>
      have hf : good'.length + 1 ≤ f := by
        simp only [List.length_cons] at hfuel
        omega
      have hone : retrieveLoop server (f + 1) (some (List.headD (u :: good') bad)) gets acc =
          retrieveLoop server f (some (good'.headD bad)) (gets ++ [u])
            (acc ++ (server u).results) := by
        simp [retrieveLoop, hstep.1, hstep.2.1]
      rw [hone, ih bad f (gets ++ [u]) (acc ++ (server u).results) hstep.2.2 hbad hf]
      simp

/-- C9: if any page of the chain answers with a status other than 200 —
here, after a prefix of successful pages — the fetcher returns the
empty tag list, never a partial one. -/
theorem retrieve_tags_non200 (server : String → PageResponse) (good : List String) (bad : String)
    (fuel : Nat) (hchain : chainTo server good bad) (hbad : (server bad).status ≠ 200)
    (hfuel : good.length + 1 ≤ fuel) :
    (retrieve_tags server (good.headD bad) fuel).2 = [] ∧
    retrieve_tags server (good.headD bad) fuel = (good ++ [bad], []) := by
  have h := retrieveLoop_chainTo server good bad fuel [] [] hchain hbad hfuel
  have h2 : retrieve_tags server (good.headD bad) fuel = (good ++ [bad], []) := by
    simpa [retrieve_tags] using h
  exact ⟨by rw [h2], h2⟩

/-- A server whose third page fails after two successful pages. -/
def serverBad : String → PageResponse := fun u =>
  if u = "page1" then { status := 200, next := some ("page2"), results := [pageTag ("a")] }
  else if u = "page2" then { status := 200, next := some ("page3"), results := [pageTag ("b")] }
  else { status := 404, next := none, results := [] }

/-- C9 witness: two successful pages followed by a 404 yield the empty
tag list. -/
theorem retrieve_tags_non200_witness :
    chainTo serverBad ["page1", "page2"] "page3" ∧
    (serverBad ("page3")).status ≠ 200 ∧
    (["page1", "page2"] : List String).length + 1 ≤ 5 ∧
    ((retrieve_tags serverBad (["page1", "page2"].headD ("page3")) 5).2 = [] ∧
      retrieve_tags serverBad (["page1", "page2"].headD ("page3")) 5 =
        (["page1", "page2"] ++ ["page3"], [])) :=
  ⟨by simp only [chainTo]; decide, by decide, by decide,
   retrieve_tags_non200 serverBad ["page1", "page2"] "page3" 5
     (by simp only [chainTo]; decide) (by decide) (by decide)⟩

/-- Filter parameters with every filter unset. -/
def unsetParams : FilterParams :=
  { regex := "", arch := "", os := "", after := XTime.negInf, before := XTime.posInf,
    below := none }

/-- C10: in a run whose fetch is non-empty but whose filters exclude
every expanded row, `main` reaches the presenter with the empty row
list and the CSV header lookup on the first row fails (modelled as
`none`, the uncaught IndexError); on any non-empty row list the lookup
is safe. -/
theorem csv_first_row_spec (fetched : List TagRecord) (ps : FilterParams) (sort : Bool)
    (hfetch : fetched ≠ []) (hempty : pipeline_rows fetched ps sort = []) :
    main_rows fetched ps sort = some (pipeline_rows fetched ps sort) ∧
    csv_fields (pipeline_rows fetched ps sort) = none ∧
    ∀ rows : List ExpandedRow, rows ≠ [] → csv_fields rows = some rowKeys := by
  refine ⟨by simp [main_rows, hfetch], by simp [hempty, csv_fields], ?_⟩
  intro rows hrows
  cases rows with
  | nil => exact absurd rfl hrows
  | cons r rs => rfl

/-- C10 witness: one fetched tag with zero image variants expands to no
rows, so the CSV header lookup fails. -/
theorem csv_first_row_spec_witness :
    ([pageTag ("t")] : List TagRecord) ≠ [] ∧
    pipeline_rows [pageTag ("t")] unsetParams false = [] ∧
    (main_rows [pageTag ("t")] unsetParams false =
        some (pipeline_rows [pageTag ("t")] unsetParams false) ∧
      csv_fields (pipeline_rows [pageTag ("t")] unsetParams false) = none ∧
      ∀ rows : List ExpandedRow, rows ≠ [] → csv_fields rows = some rowKeys) :=
  ⟨by decide, by decide,
   csv_first_row_spec [pageTag ("t")] unsetParams false (by decide) (by decide)⟩

end DockerTagSearch
